import Mathlib

/-!
Shallow embedding of `atpy/basetable.py`: the in-memory columnar `Table`
and `TableSet` data model and their row/column manipulation operations.

Modelling conventions:
* numpy scalars become `PyVal` (integers, abstract finite floats, NaN,
  fixed-width byte strings, and the Python `None` sentinel);
* a numpy record array becomes a `Block`: an ordered list of named,
  typed columns (a record array is exactly an aligned family of
  equal-length field arrays);
* Python dictionaries keyed by column name become association lists
  (`dictInsert` replaces in place or appends, `dictLookup` finds the
  first entry, `popColumn` is `dict.pop`);
* fallible operations return `Except String`; the error strings follow
  the exception messages of the source;
* `Table.namesOverride` models the instance attribute created when
  `rename_column` assigns `self.names`: Python attribute lookup consults
  instance attributes before `__getattr__`, so once the assignment has
  happened the names derived from `data.dtype.names` are shadowed.
-/

namespace ATPy

/-- Scalar values stored in table cells.  Finite floats are abstracted as
integer-valued reals (the claims never do float arithmetic); `nan` is the
IEEE not-a-number, which is not equal to itself under Python equality;
`none` is the Python `None` sentinel produced by `Table.row` in
python-types mode. -/
inductive PyVal where
  | int (n : Int)
  | float (q : Int)
  | nan
  | str (s : String)
  | none
deriving DecidableEq, Repr

/-- Python `==` on scalars: NaN compares unequal to everything, itself
included; integers and (abstract) floats compare across kinds as numbers. -/
def pyEq : PyVal → PyVal → Bool
  | .nan, _ => false
  | _, .nan => false
  | .int a, .int b => a == b
  | .float a, .float b => a == b
  | .int a, .float b => a == b
  | .float a, .int b => a == b
  | .str a, .str b => a == b
  | .none, .none => true
  | _, _ => false

def PyVal.isInt : PyVal → Bool
  | .int _ => true
  | _ => false

def PyVal.isNum : PyVal → Bool
  | .int _ => true
  | .float _ => true
  | .nan => true
  | _ => false

def PyVal.isStr : PyVal → Bool
  | .str _ => true
  | _ => false

/-- Resolved numpy dtypes of the kinds the source manipulates.  `string w`
is the fixed-width byte string dtype of itemsize `w`. -/
inductive DType where
  | int64
  | float64
  | bool_
  | string (width : Nat)
deriving DecidableEq, Repr

/-- Itemsize of each dtype in bytes (`ndarray.itemsize`). -/
def DType.itemsize : DType → Nat
  | .int64 => 8
  | .float64 => 8
  | .bool_ => 1
  | .string w => w

/-- The static `default_format` table of the source, keyed by the resolved
scalar type: `np.int64` maps to `(20, 'i')`, `np.float64` to
`(24, '.17e')`, `np.bool_` to `(5, 's')` and the byte-string types to
`(0, 's')`. -/
def defaultFormat : DType → Nat × String
  | .int64 => (20, "i")
  | .float64 => (24, ".17e")
  | .bool_ => (5, "s")
  | .string _ => (0, "s")

/-- Width of the longest string element of the input data (`np.array` on a
string sequence infers the dtype `S w` with `w` the longest element, and
the `np.object_` repacking branch computes `len(max(data, key=len))`,
which is the same number). -/
def maxStrLen (data : List PyVal) : Nat :=
  data.foldl (fun m v => match v with | .str s => max m s.length | _ => m) 0

/-- Dtype inference of `np.array(data)` for the shapes of input the claims
exercise: an empty sequence infers `float64`, an all-integer sequence
`int64`, a numeric sequence with a float `float64`, and an all-string
sequence the fixed-width string dtype sized to the longest element
(covering both the direct string inference and the `np.object_` repacking
branch of `add_column`, which produce the same dtype).  Mixed
object sequences are outside the model. -/
def inferDType (data : List PyVal) : Option DType :=
  if data.isEmpty then some DType.float64
  else if data.all PyVal.isInt then some DType.int64
  else if data.all PyVal.isNum then some DType.float64
  else if data.all PyVal.isStr then some (DType.string (maxStrLen data))
  else Option.none

/-- Per-column metadata record registered by `add_column`. -/
structure ColumnHeader where
  dtype : DType
  unit : String
  description : String
  null : String
  format : Nat × String
deriving DecidableEq, Repr

/-- Insert into an association list the way Python dictionary assignment
does: replace the first entry with the key in place, else append. -/
def dictInsert {α : Type} : List (String × α) → String → α → List (String × α)
  | [], k, v => [(k, v)]
  | p :: rest, k, v => if p.1 = k then (k, v) :: rest else p :: dictInsert rest k v

/-- Look up the first entry with the given key (Python `d[k]`). -/
def dictLookup {α : Type} : List (String × α) → String → Option α
  | [], _ => Option.none
  | p :: rest, k => if p.1 = k then some p.2 else dictLookup rest k

/-- Remove the first entry with the given key, failing like `dict.pop`
when the key is absent. -/
def popColumn {α : Type} : List (String × α) → String → Option (List (String × α))
  | [], _ => Option.none
  | p :: rest, k =>
    if p.1 = k then some rest
    else (popColumn rest k).map (p :: ·)

/-- Pop a sequence of keys one after the other, failing if any is absent
(the loop of `remove_columns`). -/
def popColumns {α : Type} : List (String × α) → List String → Option (List (String × α))
  | cols, [] => some cols
  | cols, k :: ks =>
    match popColumn cols k with
    | Option.none => Option.none
    | some cols2 => popColumns cols2 ks

/-- The columnar data block behind `Table.data`: a numpy record array
presented as its ordered family of named field arrays. -/
structure Block where
  fields : List (String × List PyVal)
deriving DecidableEq, Repr

/-- Field names of the block, in physical order (`data.dtype.names`). -/
def Block.names (b : Block) : List String := b.fields.map Prod.fst

/-- Row count of the record array (`len(self.data)`).  A record array has
one shared length; in the per-field presentation it is the length of the
first field. -/
def Block.nrows (b : Block) : Nat :=
  match b.fields with
  | [] => 0
  | p :: _ => p.2.length

/-- The i-th record: one value per field, in field order. -/
def Block.row (b : Block) (i : Nat) : List PyVal :=
  b.fields.map (fun p => p.2.getD i PyVal.none)

/-- Well-formedness of a record array: every field holds exactly `nrows`
elements.  This holds by construction for real numpy record arrays. -/
def Block.wellFormed (b : Block) : Prop :=
  ∀ p ∈ b.fields, p.2.length = b.nrows

instance (b : Block) : Decidable b.wellFormed :=
  inferInstanceAs (Decidable (∀ p ∈ b.fields, p.2.length = b.nrows))

/-- The selection argument of `where`: numpy accepts either a boolean
mask or an integer index array. -/
inductive Mask where
  | bools (bs : List Bool)
  | ints (ids : List Int)
deriving DecidableEq, Repr

/-- Resolve a (possibly negative) numpy index against an axis of length
`n`; out-of-range indices are an `IndexError`. -/
def resolveIdx (n : Nat) (i : Int) : Option Nat :=
  if 0 ≤ i then
    if i < (n : Int) then some i.toNat else Option.none
  else
    if -(n : Int) ≤ i then some (i + n).toNat else Option.none

/-- Map a fallible function over a list, failing if any element fails. -/
def optMap {α β : Type} (f : α → Option β) : List α → Option (List β)
  | [] => some []
  | a :: l =>
    match f a, optMap f l with
    | some b, some bs => some (b :: bs)
    | _, _ => Option.none

/-- Apply a selection to one field array: a boolean mask keeps the rows
at true positions (numpy requires the mask to match the axis length), an
index array picks rows in the requested order, repeats allowed. -/
def maskCol (col : List PyVal) (m : Mask) : Option (List PyVal) :=
  match m with
  | .bools bs =>
    if bs.length = col.length then
      some ((col.zip bs).filterMap (fun p => if p.2 then some p.1 else Option.none))
    else Option.none
  | .ints ids =>
    optMap (fun i => (resolveIdx col.length i).bind (fun j => col.get? j)) ids

/-- Row selection on the whole record array (`self.data[mask]`): every
field is selected with the same mask, and numpy allocates a fresh array. -/
def Block.select (b : Block) (m : Mask) : Option Block :=
  (optMap (fun p => (maskCol p.2 m).map (fun c => (p.1, c))) b.fields).map Block.mk

/-- The `Table` state: name, keyword and comment metadata, the
name-to-header mapping `columns`, and the record array `data` (absent on
a freshly reset table).  `namesOverride` is the instance attribute
`self.names` created by `rename_column`; see the module comment. -/
structure Table where
  table_name : Option String
  keywords : List (String × String)
  comments : List String
  columns : List (String × ColumnHeader)
  data : Option Block
  namesOverride : Option (List String)
deriving DecidableEq, Repr

/-- The table produced by `Table()` with no arguments (`reset` leaves
empty metadata and no data). -/
def emptyTable : Table :=
  { table_name := Option.none, keywords := [], comments := [],
    columns := [], data := Option.none, namesOverride := Option.none }

/-- The `names` attribute: the instance attribute if `rename_column` has
created one, else `self.data.dtype.names`; an `AttributeError` (here
`Option.none`) when there is no data. -/
def Table.namesAttr (T : Table) : Option (List String) :=
  match T.namesOverride with
  | some ns => some ns
  | Option.none => T.data.map Block.names

/-- The column-access branch of `__getattr__`: an attribute listed in
`self.names` is answered from `self.data[attribute]`; anything else is an
`AttributeError`. -/
def Table.getattr (T : Table) (attr : String) : Except String (List PyVal) :=
  match T.namesAttr with
  | Option.none => .error "AttributeError"
  | some ns =>
    if attr ∈ ns then
      match T.data with
      | Option.none => .error "AttributeError"
      | some b =>
        match dictLookup b.fields attr with
        | some col => .ok col
        | Option.none => .error "ValueError: field not found"
    else .error "AttributeError"

/-- The `__len__` of the source: `0` when there are no columns, else
`len(self.data)`; `Option.none` marks the `TypeError` of `len(None)`,
unreachable from the public operations. -/
def Table.len (T : Table) : Option Nat :=
  if T.columns.isEmpty then some 0
  else T.data.map Block.nrows

/-- The data-block step of `add_column`: when the table already has
columns, append the field to the existing record array, else create a
one-field record array (`np.rec.fromarrays`).

Modelled from the spec: `rechelper.append_field` is not under `src/`;
faithful to the column-uniqueness and equal-length invariants of the data
model (which numpy record dtypes enforce), it is modelled as rejecting a
duplicate field name and a field whose length disagrees with the current
row count, and otherwise appending the field. -/
def Table.appendField (T : Table) (name : String) (data : List PyVal) :
    Except String Block :=
  if T.columns.isEmpty then
    .ok ⟨[(name, data)]⟩
  else
    match T.data with
    | Option.none => .error "TypeError: table has no data"
    | some b =>
      if name ∈ b.names then
        .error "append_field: duplicate field name"
      else if data.length ≠ b.nrows then
        .error "append_field: length mismatch"
      else
        .ok ⟨b.fields ++ [(name, data)]⟩

/-- The `add_column` of the source: coerce the data (`np.array`), repack
object arrays into fixed-width strings (folded into `inferDType`), append
the field to the record array (or create it if the table has no columns),
derive the format from the `default_format` table when none is given, and
override the width with the itemsize when the format kind is the string
kind; finally register the `ColumnHeader` under `name`. -/
def Table.add_column (T : Table) (name : String) (data : List PyVal)
    (unit description null : String) (fmt : Option (Nat × String)) :
    Except String Table :=
  match inferDType data with
  | Option.none => .error "TypeError: unmodelled dtype"
  | some dt =>
    match T.appendField name data with
    | .error e => .error e
    | .ok b2 =>
      let f0 := match fmt with
        | Option.none => defaultFormat dt
        | some f => f
      let f1 := if f0.2 = "s" then (dt.itemsize, "s") else f0
      .ok { T with data := some b2,
                   columns := dictInsert T.columns name ⟨dt, unit, description, null, f1⟩ }

/-- The `remove_columns` of the source: pop each name from the `columns`
dictionary (a `KeyError` if absent), then rebuild the data block without
the removed fields.

Modelled from the spec: `rechelper.drop_fields` is not under `src/`; it
is modelled as rebuilding the record array from the fields whose names
are not being removed. -/
def Table.remove_columns (T : Table) (remove_names : List String) :
    Except String Table :=
  match popColumns T.columns remove_names with
  | Option.none => .error "KeyError"
  | some cols2 =>
    .ok { T with columns := cols2,
                 data := T.data.map
                   (fun b => ⟨b.fields.filter (fun p => !(remove_names.contains p.1))⟩) }

/-- The `keep_columns` of the source: compute the complement of the
requested names against `self.names` (the source takes a set difference;
it is linearized here in the order of `self.names`, which is one valid
iteration order of that set), guard against removing every column, and
delegate to `remove_columns`. -/
def Table.keep_columns (T : Table) (keep_names : List String) :
    Except String Table :=
  match T.namesAttr with
  | Option.none => .error "AttributeError"
  | some ns =>
    let remove_names := ns.filter (fun n => !(keep_names.contains n))
    if remove_names.length = ns.length then .error "No columns to keep"
    else T.remove_columns remove_names

/-- The `rename_column` of the source: reject an existing new name and a
missing old name, then assign `self.names` with the new name spliced in
at the position of the old one (which creates the shadowing instance
attribute and leaves `data.dtype.names` untouched), and move the
`ColumnHeader` entry to the new key. -/
def Table.rename_column (T : Table) (old_name new_name : String) :
    Except String Table :=
  match T.namesAttr with
  | Option.none => .error "AttributeError"
  | some ns =>
    if new_name ∈ ns then
      .error ("Column " ++ new_name ++ " already exists")
    else if old_name ∉ ns then
      .error ("Column " ++ old_name ++ " not found")
    else
      let pos := ns.indexOf old_name
      let ns2 := ns.take pos ++ [new_name] ++ ns.drop (pos + 1)
      match dictLookup T.columns old_name with
      | Option.none => .error "KeyError"
      | some hdr =>
        .ok { T with namesOverride := some ns2,
                     columns := (dictInsert T.columns new_name hdr).filter
                       (fun p => p.1 ≠ old_name) }

/-- The `row` of the source: the i-th record, an `IndexError` out of
range; in python-types mode every element failing the `elem != elem`
self-equality test (exactly the NaNs) is replaced by `None`. -/
def Table.row (T : Table) (row_number : Nat) (python_types : Bool) :
    Except String (List PyVal) :=
  match T.data with
  | Option.none => .error "TypeError: table has no data"
  | some b =>
    if row_number < b.nrows then
      let r := b.row row_number
      if python_types then
        .ok (r.map (fun e => if pyEq e e then e else PyVal.none))
      else .ok r
    else .error "IndexError"

/-- The `where` of the source: a fresh table of the same class, metadata
shallow-copied, data selected into a fresh array (`self.data[mask]`). -/
def Table.where' (T : Table) (m : Mask) : Except String Table :=
  match T.data with
  | Option.none => .error "TypeError: table has no data"
  | some b =>
    match b.select m with
    | Option.none => .error "IndexError"
    | some b2 =>
      .ok { table_name := T.table_name, keywords := T.keywords,
            comments := T.comments, columns := T.columns,
            data := some b2, namesOverride := Option.none }

/-- The `rows` of the source: `self.where(np.array(row_ids, dtype=int))`. -/
def Table.rows (T : Table) (row_ids : List Int) : Except String Table :=
  T.where' (Mask.ints row_ids)

/-- Number of rows a successful selection produces, a function of the mask
alone: a boolean mask keeps one row per true entry, an index array one row
per index. -/
def maskLenM : Mask → Nat
  | .bools bs => (bs.filter (fun x => x)).length
  | .ints ids => ids.length

/-- Reference description of index selection, used to state what `rows`
returns: every field keeps its name and holds, for each requested index
in order (repeats included), the element of the original field at that
index. -/
def pickRows (b : Block) (ids : List Int) : Block :=
  ⟨b.fields.map (fun p => (p.1, ids.map (fun i => p.2.getD i.toNat PyVal.none)))⟩

/-- Storage model for the independence guarantee of `where`: a heap of
record arrays, indexed by which array object a table's `data` attribute
references.  `self.data[mask]` reads the source array and allocates the
selected rows as a fresh array at a fresh index; `List.set` models an
in-place mutation of the array at an index. -/
def heapSelect (hp : List Block) (src : Nat) (m : Mask) :
    Option (List Block × Nat) :=
  match hp.get? src with
  | Option.none => Option.none
  | some b =>
    match b.select m with
    | Option.none => Option.none
    | some b2 => some (hp ++ [b2], hp.length)

/-- The length invariant of the data model: a table with columns has a
record array whose fields all hold exactly `nrows` elements. -/
def lenInv (T : Table) : Prop :=
  T.columns ≠ [] → ∃ b, T.data = some b ∧ b.wellFormed

/-- An ordered collection of tables (`TableSet`). -/
structure TableSet where
  tables : List Table
deriving DecidableEq, Repr

/-- The list-seeding branch of `TableSet.__init__`.  In the source the
`return` statement sits inside the `for` loop body, directly after
`self.tables.append(table)`, so the constructor exits after the first
iteration: a non-empty list seeds the set with its first table only,
while an empty list falls through past the loop to `self.read(arg)`.

Modelled from the spec: `AutoMethods.read` is a format-backend entry
point not under `src/`; handed a plain list rather than a recognized data
source it fails, modelled as an error. -/
def TableSet.initFromList (arg : List Table) : Except String TableSet :=
  match arg with
  | [] => .error "read: no backend accepts a list argument"
  | t :: _ => .ok ⟨[t]⟩

/-- The TableSet-seeding branch of `TableSet.__init__`; the same
misindented `return` sits inside its `for` loop, so only the first table
of the source set is copied, and an empty source set falls through to
`self.read(arg)` (modelled from the spec as with `initFromList`). -/
def TableSet.initFromTableSet (arg : TableSet) : Except String TableSet :=
  match arg.tables with
  | [] => .error "read: no backend accepts a TableSet argument"
  | t :: _ => .ok ⟨[t]⟩

/-- A concrete two-row table with one integer column `a`, built through
the public operations. -/
def tblInt : Table :=
  match emptyTable.add_column "a" [PyVal.int 1, PyVal.int 2] "" "" "" Option.none with
  | .ok t => t
  | .error _ => emptyTable

/-- The data block of `tblInt`. -/
def blkInt : Block := ⟨[("a", [PyVal.int 1, PyVal.int 2])]⟩

/-- A concrete one-row table with one integer column `z`, distinct from
`tblInt`. -/
def tblZ : Table :=
  match emptyTable.add_column "z" [PyVal.int 3] "" "" "" Option.none with
  | .ok t => t
  | .error _ => emptyTable

/-- A concrete three-row table with an integer column and a float column
holding a NaN, built through the public operations. -/
def tbl3 : Table :=
  match (emptyTable.add_column "id" [PyVal.int 1, PyVal.int 2, PyVal.int 3]
      "" "" "" Option.none).bind
      (fun t => t.add_column "val" [PyVal.float 10, PyVal.nan, PyVal.float 30]
        "" "" "" Option.none) with
  | .ok t => t
  | .error _ => emptyTable

/-- The data block of `tbl3`. -/
def blk3 : Block :=
  ⟨[("id", [PyVal.int 1, PyVal.int 2, PyVal.int 3]),
    ("val", [PyVal.float 10, PyVal.nan, PyVal.float 30])]⟩

/-- A concrete table holding one string column added with an explicit
narrower string format argument. -/
def strTbl : Table :=
  match emptyTable.add_column "s"
      [PyVal.str "abc", PyVal.str "abcdefg", PyVal.str "xy"]
      "" "" "" (some (3, "s")) with
  | .ok t => t
  | .error _ => emptyTable

/-- The table `tblInt.rename_column "a" "b"` produces. -/
def tblRenamed : Table :=
  match tblInt.rename_column "a" "b" with
  | .ok t => t
  | .error _ => emptyTable

/-- The table `tblInt.where'` produces under an all-false mask: no rows
are selected but the columns mapping is copied. -/
def tblNoRows : Table :=
  match tblInt.where' (Mask.bools [false, false]) with
  | .ok t => t
  | .error _ => emptyTable

instance {ε α : Type} [DecidableEq ε] [DecidableEq α] :
    DecidableEq (Except ε α) := fun a b =>
  match a, b with
  | .ok x, .ok y =>
    if h : x = y then isTrue (by rw [h]) else isFalse (by intro hc; cases hc; exact h rfl)
  | .error x, .error y =>
    if h : x = y then isTrue (by rw [h]) else isFalse (by intro hc; cases hc; exact h rfl)
  | .ok _, .error _ => isFalse (by intro hc; cases hc)
  | .error _, .ok _ => isFalse (by intro hc; cases hc)

theorem zip_replicate_true_filterMap (col : List PyVal) :
    (col.zip (List.replicate col.length true)).filterMap
      (fun p => if p.2 then some p.1 else Option.none) = col := by
  induction col with
  | nil => rfl
  | cons a l ih => simp [List.replicate_succ, ih]

theorem maskCol_replicate_true (col : List PyVal) (n : Nat) (h : col.length = n) :
    maskCol col (Mask.bools (List.replicate n true)) = some col := by
  subst h
  simp [maskCol, zip_replicate_true_filterMap]

theorem optMap_eq_some_map {α β : Type} (f : α → Option β) (g : α → β)
    (l : List α) (h : ∀ a ∈ l, f a = some (g a)) :
    optMap f l = some (l.map g) := by
  induction l with
  | nil => rfl
  | cons a l ih =>
    have ha := h a (List.mem_cons_self a l)
    have hl := ih (fun x hx => h x (List.mem_cons_of_mem a hx))
    simp [optMap, ha, hl]

theorem optMap_length {α β : Type} (f : α → Option β) :
    ∀ (l : List α) (out : List β), optMap f l = some out → out.length = l.length
  | [], out, h => by
    cases h
    rfl
  | a :: l, out, h => by
    unfold optMap at h
    cases hfa : f a with
    | none => rw [hfa] at h; cases h
    | some b =>
      rw [hfa] at h
      cases hrest : optMap f l with
      | none => rw [hrest] at h; cases h
      | some bs =>
        rw [hrest] at h
        cases h
        simp [optMap_length f l bs hrest]

theorem optMap_mem {α β : Type} (f : α → Option β) :
    ∀ (l : List α) (out : List β), optMap f l = some out →
      ∀ y ∈ out, ∃ x ∈ l, f x = some y
  | [], out, h => by
    cases h
    intro y hy
    cases hy
  | a :: l, out, h => by
    unfold optMap at h
    cases hfa : f a with
    | none => rw [hfa] at h; cases h
    | some b =>
      rw [hfa] at h
      cases hrest : optMap f l with
      | none => rw [hrest] at h; cases h
      | some bs =>
        rw [hrest] at h
        cases h
        intro y hy
        rcases List.mem_cons.1 hy with hyb | hybs
        · exact ⟨a, List.mem_cons_self a l, hyb ▸ hfa⟩
        · rcases optMap_mem f l bs hrest y hybs with ⟨x, hx, hfx⟩
          exact ⟨x, List.mem_cons_of_mem a hx, hfx⟩

theorem select_replicate_true (b : Block) (hwf : b.wellFormed) :
    b.select (Mask.bools (List.replicate b.nrows true)) = some b := by
  unfold Block.select
  rw [optMap_eq_some_map _ (fun p => p) b.fields
    (fun p hp => by rw [maskCol_replicate_true p.2 b.nrows (hwf p hp)]; rfl)]
  simp

theorem pyEq_self_iff (e : PyVal) :
    (if pyEq e e then e else PyVal.none)
      = (if e = PyVal.nan then PyVal.none else e) := by
  cases e <;> simp [pyEq]

/-- C9: for a table with a data block and a valid row index, `row` in
python-types mode returns the i-th record with every NaN replaced by the
`None` sentinel (NaN being exactly the values failing the `x != x`
self-equality test) and every other element unchanged, while without
python-types mode the record is returned as stored. -/
theorem row_nan_to_none (T : Table) (b : Block) (i : Nat)
    (hd : T.data = some b) (hi : i < b.nrows) :
    T.row i true = Except.ok ((b.row i).map
        (fun e => if e = PyVal.nan then PyVal.none else e))
    ∧ T.row i false = Except.ok (b.row i) := by
  have hf : (fun e => if pyEq e e then e else PyVal.none)
      = (fun e => if e = PyVal.nan then PyVal.none else e) := funext pyEq_self_iff
  constructor
  · simp [Table.row, hd, hi, hf]
  · simp [Table.row, hd, hi]

/-- Witness for C9 at the concrete three-row table: row 1 holds the NaN,
which python-types mode turns into `None`. -/
theorem row_nan_to_none_witness :
    tbl3.row 1 true = Except.ok ((blk3.row 1).map
        (fun e => if e = PyVal.nan then PyVal.none else e))
    ∧ tbl3.row 1 false = Except.ok (blk3.row 1) :=
  row_nan_to_none tbl3 blk3 1 (by decide) (by decide)

/-- C4 (code bug): renaming the only column `a` of a two-row table to `b`
succeeds, yet afterwards neither the new nor the old name reads the
column's values: the source assigns the derived `names` attribute instead
of renaming the record array's field, so the values stay under field `a`
of the data block while attribute access routes `b` to a missing field
and rejects `a` as no longer listed. -/
theorem rename_column_loses_column :
    tblInt.rename_column "a" "b" = Except.ok tblRenamed
    ∧ tblRenamed.getattr "b" = Except.error "ValueError: field not found"
    ∧ tblRenamed.getattr "a" = Except.error "AttributeError"
    ∧ tblRenamed.data = some blkInt
    ∧ tblInt.getattr "a" = Except.ok [PyVal.int 1, PyVal.int 2] := by
  refine ⟨by decide, by decide, by decide, by decide, by decide⟩

/-- C8 (code bug): seeding a `TableSet` from a two-element list stores
only the first table, because the constructor's `return` sits inside the
seeding loop; seeding from another `TableSet` drops tables the same way. -/
theorem tableset_init_keeps_first_only :
    TableSet.initFromList [tblInt, tblZ] = Except.ok ⟨[tblInt]⟩
    ∧ (⟨[tblInt]⟩ : TableSet) ≠ ⟨[tblInt, tblZ]⟩
    ∧ TableSet.initFromTableSet ⟨[tblInt, tblZ]⟩ = Except.ok ⟨[tblInt]⟩ := by
  refine ⟨by decide, by decide, by decide⟩

/-- C7 fails as stated: an all-false selection on a one-column table
yields a table with one column and length zero, so zero length does not
imply zero columns. -/
theorem len_zero_with_columns :
    tblInt.where' (Mask.bools [false, false]) = Except.ok tblNoRows
    ∧ tblNoRows.len = some 0
    ∧ tblNoRows.columns ≠ []
    ∧ ¬(tblNoRows.len = some 0 ↔ tblNoRows.columns = []) := by
  refine ⟨by decide, by decide, by decide, by decide⟩

/-- C1: selecting with an all-true boolean mask of the table's row count
returns a table equal to the source in name, metadata, column order and
per-row values; and in the heap model of array storage the selection
allocates the selected data as a fresh block at a fresh index, so writing
any block over the result's index leaves the block the source table
references unchanged. -/
theorem where_all_true_roundtrip (T : Table) (b : Block)
    (hp hp2 : List Block) (src nid : Nat) (b3 : Block)
    (hd : T.data = some b) (hwf : b.wellFormed)
    (hno : T.namesOverride = Option.none)
    (hsrc : hp.get? src = some b)
    (hsel : heapSelect hp src (Mask.bools (List.replicate b.nrows true))
      = some (hp2, nid)) :
    T.where' (Mask.bools (List.replicate b.nrows true)) = Except.ok T
    ∧ nid ≠ src
    ∧ (hp2.set nid b3).get? src = some b := by
  have hsel2 := select_replicate_true b hwf
  have hsrclt : src < hp.length := by
    by_contra hcon
    rw [List.get?_eq_getElem?, List.getElem?_eq_none (Nat.le_of_not_lt hcon)] at hsrc
    cases hsrc
  unfold heapSelect at hsel
  rw [hsrc] at hsel
  simp only [hsel2] at hsel
  have hpair : (hp ++ [b], hp.length) = (hp2, nid) := Option.some.inj hsel
  have hhp2 : hp2 = hp ++ [b] := (congrArg Prod.fst hpair).symm
  have hnid : nid = hp.length := (congrArg Prod.snd hpair).symm
  refine ⟨?_, ?_, ?_⟩
  · have heta : Table.mk T.table_name T.keywords T.comments T.columns
        (some b) Option.none = T := by
      rw [← hd, ← hno]
    simp [Table.where', hd, hsel2, heta]
  · rw [hnid]
    exact fun h => absurd (h ▸ hsrclt) (Nat.lt_irrefl _)
  · rw [hhp2, hnid, List.get?_eq_getElem?,
      List.getElem?_set_ne (fun h => absurd (h ▸ hsrclt) (Nat.lt_irrefl _)),
      List.getElem?_append_left hsrclt, ← List.get?_eq_getElem?]
    exact hsrc

/-- Witness for C1 at a concrete one-table heap. -/
theorem where_all_true_roundtrip_witness :
    tblInt.where' (Mask.bools (List.replicate blkInt.nrows true)) = Except.ok tblInt
    ∧ 1 ≠ 0
    ∧ (([blkInt, blkInt].set 1 ⟨[]⟩).get? 0 = some blkInt) :=
  where_all_true_roundtrip tblInt blkInt [blkInt] [blkInt, blkInt] 0 1 ⟨[]⟩
    (by decide) (by decide) (by decide) (by decide) (by decide)

/-- C2: selecting rows by an index list whose entries are valid row
indices (repeats allowed) returns a table with one row per requested
index whose k-th row is the source's row at the k-th index, the column
names unchanged in source order and the metadata copied. -/
theorem rows_selects_in_order (T : Table) (b : Block) (ids : List Int) (k : Nat)
    (hd : T.data = some b) (hwf : b.wellFormed)
    (hids : ∀ i ∈ ids, 0 ≤ i ∧ i < (b.nrows : Int)) (hk : k < ids.length) :
    T.rows ids = Except.ok (Table.mk T.table_name T.keywords T.comments
      T.columns (some (pickRows b ids)) Option.none)
    ∧ (pickRows b ids).names = b.names
    ∧ (pickRows b ids).nrows = ids.length
    ∧ (pickRows b ids).row k = b.row (ids.getD k 0).toNat := by
  have hcol : ∀ p ∈ b.fields, maskCol p.2 (Mask.ints ids)
      = some (ids.map (fun i => p.2.getD i.toNat PyVal.none)) := by
    intro p hp
    apply optMap_eq_some_map
    intro i hi
    obtain ⟨h0, hlt⟩ := hids i hi
    have hlen : p.2.length = b.nrows := hwf p hp
    have hlt2 : i.toNat < p.2.length := by omega
    have hres : resolveIdx p.2.length i = some i.toNat := by
      unfold resolveIdx
      rw [if_pos h0, if_pos (by omega)]
    show (resolveIdx p.2.length i).bind (fun j => p.2.get? j)
      = some (p.2.getD i.toNat PyVal.none)
    rw [hres, Option.some_bind, List.get?_eq_getElem?,
      List.getElem?_eq_getElem hlt2, List.getD_eq_getElem p.2 PyVal.none hlt2]
  have hsel : b.select (Mask.ints ids) = some (pickRows b ids) := by
    unfold Block.select
    rw [optMap_eq_some_map _
      (fun p => (p.1, ids.map (fun i => p.2.getD i.toNat PyVal.none))) b.fields
      (fun p hp => by rw [hcol p hp]; rfl)]
    rfl
  refine ⟨?_, ?_, ?_, ?_⟩
  · simp [Table.rows, Table.where', hd, hsel]
  · simp [pickRows, Block.names]
  · cases hfb : b.fields with
    | nil =>
      cases ids with
      | nil => cases hk
      | cons i rest =>
        obtain ⟨h0, hlt⟩ := hids i (List.mem_cons_self i rest)
        have hz : b.nrows = 0 := by
          unfold Block.nrows
          rw [hfb]
        rw [hz] at hlt
        omega
    | cons p l => simp [pickRows, Block.nrows, hfb]
  · unfold pickRows Block.row
    rw [List.map_map]
    apply List.map_congr_left
    intro p hp
    have hkm : k < (ids.map (fun i => p.2.getD i.toNat PyVal.none)).length := by
      simpa using hk
    show (ids.map (fun i => p.2.getD i.toNat PyVal.none)).getD k PyVal.none
      = p.2.getD (ids.getD k 0).toNat PyVal.none
    rw [List.getD_eq_getElem _ _ hkm, List.getElem_map, List.getD_eq_getElem _ _ hk]

/-- Witness for C2: `rows [2,0,0,1]` on the concrete three-row table. -/
theorem rows_selects_in_order_witness :
    tbl3.rows [2, 0, 0, 1] = Except.ok (Table.mk tbl3.table_name tbl3.keywords
      tbl3.comments tbl3.columns (some (pickRows blk3 [2, 0, 0, 1])) Option.none)
    ∧ (pickRows blk3 [2, 0, 0, 1]).names = blk3.names
    ∧ (pickRows blk3 [2, 0, 0, 1]).nrows = ([2, 0, 0, 1] : List Int).length
    ∧ (pickRows blk3 [2, 0, 0, 1]).row 0
        = blk3.row (([2, 0, 0, 1] : List Int).getD 0 0).toNat :=
  rows_selects_in_order tbl3 blk3 [2, 0, 0, 1] 0
    (by decide) (by decide) (by decide) (by decide)

theorem dictLookup_dictInsert {α : Type} (l : List (String × α)) (k : String) (v : α) :
    dictLookup (dictInsert l k v) k = some v := by
  induction l with
  | nil => simp [dictInsert, dictLookup]
  | cons p rest ih =>
    by_cases hp : p.1 = k
    · simp [dictInsert, hp, dictLookup]
    · simp [dictInsert, hp, dictLookup, ih]

/-- C3: adding a column whose data resolves to strings registers a header
whose format width is the length of the longest element and whose kind is
the string kind, whatever width a caller-supplied string format carries;
the dtype records the same fixed byte width. -/
theorem add_column_string_format (T T2 : Table) (name : String) (ss : List String)
    (unit description null : String) (fmt : Option (Nat × String))
    (hne : ss ≠ [])
    (hfmt : ∀ f, fmt = some f → f.2 = "s")
    (hok : T.add_column name (ss.map PyVal.str) unit description null fmt
      = Except.ok T2) :
    dictLookup T2.columns name = some
      (ColumnHeader.mk (DType.string ((ss.map String.length).foldl max 0))
        unit description null ((ss.map String.length).foldl max 0, "s")) := by
  obtain ⟨s0, ss', rfl⟩ : ∃ s0 ss', ss = s0 :: ss' := by
    cases ss with
    | nil => exact absurd rfl hne
    | cons s0 ss' => exact ⟨s0, ss', rfl⟩
  have hw : maxStrLen ((s0 :: ss').map PyVal.str)
      = (((s0 :: ss').map String.length).foldl max 0) := by
    simp [maxStrLen, List.foldl_map]
  have hdt : inferDType ((s0 :: ss').map PyVal.str)
      = some (DType.string (((s0 :: ss').map String.length).foldl max 0)) := by
    rw [← hw]
    simp [inferDType, PyVal.isInt, PyVal.isNum, PyVal.isStr]
  unfold Table.add_column at hok
  rw [hdt] at hok
  cases happ : T.appendField name ((s0 :: ss').map PyVal.str) with
  | error e =>
    rw [happ] at hok
    cases hok
  | ok b2 =>
    rw [happ] at hok
    have hT2 := Except.ok.inj hok
    rw [← hT2]
    cases hf : fmt with
    | none =>
      simp only [hf, defaultFormat, DType.itemsize]
      exact dictLookup_dictInsert T.columns name _
    | some f =>
      have hfs := hfmt f hf
      simp only [hf, hfs, if_pos rfl, DType.itemsize]
      exact dictLookup_dictInsert T.columns name _

/-- Witness for C3 at a concrete column of lengths 3, 7, 2 with a
caller-supplied narrower string format of width 3. -/
theorem add_column_string_format_witness :
    dictLookup strTbl.columns "s" = some
      (ColumnHeader.mk
        (DType.string ((["abc", "abcdefg", "xy"].map String.length).foldl max 0))
        "" "" "" ((["abc", "abcdefg", "xy"].map String.length).foldl max 0, "s")) :=
  add_column_string_format emptyTable strTbl "s" ["abc", "abcdefg", "xy"]
    "" "" "" (some (3, "s")) (by decide) (fun f hf => by cases hf; rfl) (by decide)

/-- C5: adding a column under a name the table already has fails with the
duplicate-field error raised while appending to the record array, and the
failure leaves no way to replace or shadow the existing column (the error
is signalled before any state is produced). -/
theorem add_column_duplicate_fails (T : Table) (b : Block) (name : String)
    (data : List PyVal) (unit description null : String)
    (fmt : Option (Nat × String)) (dt : DType)
    (hd : T.data = some b)
    (hsync : T.columns.map Prod.fst = b.names)
    (hmem : name ∈ T.columns.map Prod.fst)
    (hdt : inferDType data = some dt) :
    T.add_column name data unit description null fmt
      = Except.error "append_field: duplicate field name" := by
  have hcols : T.columns.isEmpty = false := by
    cases hc : T.columns with
    | nil => rw [hc] at hmem; cases hmem
    | cons p l => rfl
  have hmem2 : name ∈ b.names := hsync ▸ hmem
  simp [Table.add_column, Table.appendField, hdt, hcols, hd, hmem2]

/-- Witness for C5: re-adding column `a` of the concrete table fails. -/
theorem add_column_duplicate_fails_witness :
    tblInt.add_column "a" [PyVal.int 7, PyVal.int 8] "" "" "" Option.none
      = Except.error "append_field: duplicate field name" :=
  add_column_duplicate_fails tblInt blkInt "a" [PyVal.int 7, PyVal.int 8]
    "" "" "" Option.none DType.int64 (by decide) (by decide) (by decide) (by decide)

/-- C6: keeping the full set of column names succeeds and leaves the
table unchanged (the complement to remove is empty), while keeping the
empty set fails with the no-columns-kept guard and removes nothing. -/
theorem keep_all_vs_keep_none (T : Table) (b : Block)
    (hd : T.data = some b) (hno : T.namesOverride = Option.none)
    (hne : b.names ≠ []) :
    T.keep_columns b.names = Except.ok T
    ∧ T.keep_columns [] = Except.error "No columns to keep" := by
  have hns : T.namesAttr = some b.names := by
    simp [Table.namesAttr, hno, hd]
  constructor
  · have hrem : b.names.filter (fun n => !(b.names.contains n)) = [] := by
      apply List.filter_eq_nil_iff.2
      intro n hn
      simp [List.elem_eq_true_of_mem hn, hn]
    have hlen : ¬ ([] : List String).length = b.names.length := by
      cases hb : b.names with
      | nil => exact absurd hb hne
      | cons q l => simp
    have heta : Table.mk T.table_name T.keywords T.comments T.columns
        (some b) T.namesOverride = T := by
      rw [← hd]
    have hrc : T.remove_columns [] = Except.ok T := by
      unfold Table.remove_columns popColumns
      simp [hd, heta]
    unfold Table.keep_columns
    rw [hns]
    show (if (b.names.filter (fun n => !(b.names.contains n))).length
          = b.names.length
        then Except.error "No columns to keep"
        else T.remove_columns
          (b.names.filter (fun n => !(b.names.contains n)))) = Except.ok T
    rw [hrem, if_neg hlen]
    exact hrc
  · have hrem2 : b.names.filter (fun n => !(([] : List String).contains n))
        = b.names := List.filter_eq_self.2 (fun a _ => rfl)
    unfold Table.keep_columns
    rw [hns]
    show (if (b.names.filter (fun n => !(([] : List String).contains n))).length
          = b.names.length
        then Except.error "No columns to keep"
        else T.remove_columns
          (b.names.filter (fun n => !(([] : List String).contains n))))
      = Except.error "No columns to keep"
    rw [hrem2, if_pos rfl]

/-- Witness for C6 at the concrete one-column table. -/
theorem keep_all_vs_keep_none_witness :
    tblInt.keep_columns blkInt.names = Except.ok tblInt
    ∧ tblInt.keep_columns [] = Except.error "No columns to keep" :=
  keep_all_vs_keep_none tblInt blkInt (by decide) (by decide) (by decide)

theorem map_fst_filter_key {α : Type} (q : String → Bool) :
    ∀ (l : List (String × α)),
      (l.filter (fun p => q p.1)).map Prod.fst = (l.map Prod.fst).filter q
  | [] => rfl
  | p :: rest => by
    cases hq : q p.1 <;>
      simp [List.filter_cons, hq, map_fst_filter_key q rest]

theorem popColumn_eq_filter {α : Type} (r : String) :
    ∀ (cols : List (String × α)), (cols.map Prod.fst).Nodup →
      r ∈ cols.map Prod.fst →
      popColumn cols r = some (cols.filter (fun p => !(p.1 == r)))
  | [], _, hmem => by cases hmem
  | p :: rest, hnd, hmem => by
    have hnd2 := List.nodup_cons.1
      (show (p.1 :: rest.map Prod.fst).Nodup from hnd)
    by_cases hp : p.1 = r
    · have hrest : rest.filter (fun q2 => !(q2.1 == r)) = rest := by
        apply List.filter_eq_self.2
        intro q2 hq2
        have hq2m : q2.1 ∈ rest.map Prod.fst := List.mem_map_of_mem Prod.fst hq2
        have hne : ¬ q2.1 = p.1 := fun he => hnd2.1 (he ▸ hq2m)
        rw [hp] at hne
        simp [hne]
      unfold popColumn
      rw [if_pos hp]
      simp [List.filter_cons, hp, hrest]
    · have hmem' : r ∈ rest.map Prod.fst := by
        rcases List.mem_cons.1
          (show r ∈ p.1 :: rest.map Prod.fst from hmem) with h1 | h2
        · exact absurd h1.symm hp
        · exact h2
      have ih := popColumn_eq_filter r rest hnd2.2 hmem'
      unfold popColumn
      rw [if_neg hp, ih]
      simp [List.filter_cons, hp]

theorem popColumns_eq_filter {α : Type} :
    ∀ (rs : List String) (cols : List (String × α)),
      (cols.map Prod.fst).Nodup → rs.Nodup →
      (∀ r ∈ rs, r ∈ cols.map Prod.fst) →
      popColumns cols rs = some (cols.filter (fun p => !(rs.contains p.1)))
  | [], cols, _, _, _ => by
    unfold popColumns
    have hall : cols.filter (fun p => !(([] : List String).contains p.1))
        = cols := List.filter_eq_self.2 (fun a _ => rfl)
    rw [hall]
  | r :: rs', cols, hnd, hrsnd, hsub => by
    have hmem : r ∈ cols.map Prod.fst := hsub r (List.mem_cons_self r rs')
    have hpop := popColumn_eq_filter r cols hnd hmem
    have hmapf := map_fst_filter_key (fun x => !(x == r)) cols
    have hnd2 : ((cols.filter (fun p => !(p.1 == r))).map Prod.fst).Nodup := by
      rw [hmapf]
      exact hnd.filter _
    have hrsnd2 := List.nodup_cons.1 hrsnd
    have hsub2 : ∀ x ∈ rs',
        x ∈ (cols.filter (fun p => !(p.1 == r))).map Prod.fst := by
      intro x hx
      rw [hmapf]
      apply List.mem_filter.2
      refine ⟨hsub x (List.mem_cons_of_mem r hx), ?_⟩
      have hxr : ¬ x = r := fun he => hrsnd2.1 (he ▸ hx)
      simp [hxr]
    unfold popColumns
    rw [hpop]
    show popColumns (cols.filter (fun p => !(p.1 == r))) rs'
      = some (cols.filter (fun p => !((r :: rs').contains p.1)))
    rw [popColumns_eq_filter rs' _ hnd2 hrsnd2.2 hsub2]
    congr 1
    rw [List.filter_filter]
    apply List.filter_congr
    intro p _
    rw [List.contains_cons]
    cases hcr : (p.1 == r) <;> cases hcs : rs'.contains p.1 <;> rfl

/-- C10: `keep_columns` silently ignores requested names that are not
columns: when at least one requested name is an existing column it
succeeds, removing exactly the existing columns outside the request (both
from the header mapping and from the data block) and raising no
column-not-found error for the unknown names; when no requested name
matches an existing column it fails with the no-columns-kept guard. -/
theorem keep_columns_ignores_unknown_names (T : Table) (b : Block)
    (keep : List String)
    (hd : T.data = some b) (hno : T.namesOverride = Option.none)
    (hsync : T.columns.map Prod.fst = b.names) (hnd : b.names.Nodup) :
    ((∃ n, n ∈ b.names ∧ keep.contains n) →
      T.keep_columns keep = Except.ok (Table.mk T.table_name T.keywords
        T.comments (T.columns.filter (fun p => keep.contains p.1))
        (some ⟨b.fields.filter (fun p => keep.contains p.1)⟩) T.namesOverride))
    ∧ ((∀ n ∈ b.names, ¬ keep.contains n) →
      T.keep_columns keep = Except.error "No columns to keep") := by
  have hns : T.namesAttr = some b.names := by
    simp [Table.namesAttr, hno, hd]
  constructor
  · rintro ⟨n0, hn0, hk0⟩
    have hlen : ¬ (b.names.filter (fun n => !(keep.contains n))).length
        = b.names.length := by
      intro heq
      have hfeq : b.names.filter (fun n => !(keep.contains n)) = b.names :=
        (List.filter_sublist b.names).eq_of_length heq
      have hcontra := List.filter_eq_self.1 hfeq n0 hn0
      rw [hk0] at hcontra
      cases hcontra
    have hndcols : (T.columns.map Prod.fst).Nodup := by
      rw [hsync]
      exact hnd
    have hsubs : ∀ x ∈ b.names.filter (fun n => !(keep.contains n)),
        x ∈ T.columns.map Prod.fst := by
      intro x hx
      rw [hsync]
      exact (List.mem_filter.1 hx).1
    have hpop := popColumns_eq_filter (b.names.filter (fun n => !(keep.contains n)))
      T.columns hndcols (hnd.filter _) hsubs
    have hptw : ∀ x, x ∈ b.names →
        (!((b.names.filter (fun n => !(keep.contains n))).contains x))
          = keep.contains x := by
      intro x hxmem
      cases hkc : keep.contains x with
      | true =>
        have hnotin : x ∉ b.names.filter (fun n => !(keep.contains n)) := by
          intro hin
          have h2 := (List.mem_filter.1 hin).2
          rw [hkc] at h2
          cases h2
        have hcf : (b.names.filter (fun n => !(keep.contains n))).contains x
            = false := by
          cases hc : (b.names.filter (fun n => !(keep.contains n))).contains x
          · rfl
          · exact absurd (List.mem_of_elem_eq_true hc) hnotin
        rw [hcf]
        rfl
      | false =>
        have hin : x ∈ b.names.filter (fun n => !(keep.contains n)) :=
          List.mem_filter.2 ⟨hxmem, by rw [hkc]; rfl⟩
        rw [show (b.names.filter (fun n => !(keep.contains n))).contains x = true
          from List.elem_eq_true_of_mem hin]
        rfl
    have hcols : T.columns.filter
          (fun p => !((b.names.filter (fun n => !(keep.contains n))).contains p.1))
        = T.columns.filter (fun p => keep.contains p.1) := by
      apply List.filter_congr
      intro p hp
      exact hptw p.1 (hsync ▸ List.mem_map_of_mem Prod.fst hp)
    have hflds : b.fields.filter
          (fun p => !((b.names.filter (fun n => !(keep.contains n))).contains p.1))
        = b.fields.filter (fun p => keep.contains p.1) := by
      apply List.filter_congr
      intro p hp
      exact hptw p.1 (List.mem_map_of_mem Prod.fst hp)
    unfold Table.keep_columns
    rw [hns]
    show (if (b.names.filter (fun n => !(keep.contains n))).length
          = b.names.length
        then Except.error "No columns to keep"
        else T.remove_columns (b.names.filter (fun n => !(keep.contains n)))) = _
    rw [if_neg hlen]
    unfold Table.remove_columns
    rw [hpop]
    simp only [hd, Option.map_some', hcols, hflds]
  · intro hall
    have hfeq : b.names.filter (fun n => !(keep.contains n)) = b.names := by
      apply List.filter_eq_self.2
      intro a ha
      cases hca : keep.contains a with
      | true => exact absurd hca (hall a ha)
      | false => rfl
    unfold Table.keep_columns
    rw [hns]
    show (if (b.names.filter (fun n => !(keep.contains n))).length
          = b.names.length
        then Except.error "No columns to keep"
        else T.remove_columns (b.names.filter (fun n => !(keep.contains n))))
      = Except.error "No columns to keep"
    rw [hfeq, if_pos rfl]

/-- Witness for C10: keeping `id` and the unknown name `zzz` on the
concrete two-column table succeeds and keeps exactly `id`. -/
theorem keep_columns_ignores_unknown_names_witness :
    tbl3.keep_columns ["id", "zzz"] = Except.ok (Table.mk tbl3.table_name
      tbl3.keywords tbl3.comments
      (tbl3.columns.filter (fun p => (["id", "zzz"] : List String).contains p.1))
      (some ⟨blk3.fields.filter (fun p => (["id", "zzz"] : List String).contains p.1)⟩)
      tbl3.namesOverride) :=
  (keep_columns_ignores_unknown_names tbl3 blk3 ["id", "zzz"]
    (by decide) (by decide) (by decide) (by decide)).1
    ⟨"id", by decide, by decide⟩

theorem wf_single (name : String) (data : List PyVal) :
    (Block.mk [(name, data)]).wellFormed := by
  intro p hp
  rcases List.mem_singleton.1 hp with rfl
  rfl

theorem wf_append (b : Block) (name : String) (data : List PyVal)
    (hwf : b.wellFormed) (hlen : data.length = b.nrows) :
    (Block.mk (b.fields ++ [(name, data)])).wellFormed := by
  obtain ⟨fields⟩ := b
  cases fields with
  | nil =>
    intro p hp
    rcases List.mem_singleton.1 hp with rfl
    rfl
  | cons q rest =>
    intro p hp
    show p.2.length = (Block.mk (q :: rest)).nrows
    rcases List.mem_append.1 hp with hmem | hmem
    · exact hwf p hmem
    · rcases List.mem_singleton.1 hmem with rfl
      exact hlen

theorem wf_filter (b : Block) (q : String × List PyVal → Bool)
    (hwf : b.wellFormed) : (Block.mk (b.fields.filter q)).wellFormed := by
  intro p hp
  have hp' : p ∈ b.fields.filter q := hp
  have hp2 := hwf p (List.mem_of_mem_filter hp')
  cases hf : b.fields.filter q with
  | nil => rw [hf] at hp'; cases hp'
  | cons q0 rest =>
    have hq0f : q0 ∈ b.fields.filter q := by
      rw [hf]
      exact List.mem_cons_self q0 rest
    have hq0 : q0 ∈ b.fields := List.mem_of_mem_filter hq0f
    show p.2.length = q0.2.length
    exact hp2.trans (hwf q0 hq0).symm

theorem zip_mask_filterMap_length :
    ∀ (col : List PyVal) (bs : List Bool), bs.length = col.length →
      ((col.zip bs).filterMap
        (fun p => if p.2 then some p.1 else Option.none)).length
      = (bs.filter (fun x => x)).length
  | [], bs, h => by
    cases bs with
    | nil => rfl
    | cons b bs' => simp at h
  | a :: l, bs, h => by
    cases bs with
    | nil => simp at h
    | cons b bs' =>
      have h' : bs'.length = l.length := by simpa using h
      cases b with
      | true => simp [List.filter_cons, zip_mask_filterMap_length l bs' h']
      | false => simp [List.filter_cons, zip_mask_filterMap_length l bs' h']

theorem maskCol_some_length (col : List PyVal) (m : Mask) (out : List PyVal)
    (h : maskCol col m = some out) : out.length = maskLenM m := by
  cases m with
  | bools bs =>
    unfold maskCol at h
    replace h : (if bs.length = col.length
        then some ((col.zip bs).filterMap
          (fun p => if p.2 then some p.1 else Option.none))
        else Option.none) = some out := h
    by_cases hlen : bs.length = col.length
    · rw [if_pos hlen] at h
      cases h
      exact zip_mask_filterMap_length col bs hlen
    · rw [if_neg hlen] at h
      cases h
  | ints ids =>
    unfold maskCol at h
    exact optMap_length _ ids out h

theorem select_wf (b : Block) (m : Mask) (b2 : Block)
    (h : b.select m = some b2) : b2.wellFormed := by
  unfold Block.select at h
  cases hopt : optMap (fun p => (maskCol p.2 m).map (fun c => (p.1, c)))
      b.fields with
  | none => rw [hopt] at h; cases h
  | some fl =>
    rw [hopt] at h
    have hb2 : b2 = Block.mk fl := (Option.some.inj h).symm
    have hall : ∀ p2 ∈ fl, p2.2.length = maskLenM m := by
      intro p2 hp2
      rcases optMap_mem _ b.fields fl hopt p2 hp2 with ⟨p, _, hf⟩
      cases hmc : maskCol p.2 m with
      | none => rw [hmc] at hf; cases hf
      | some c =>
        rw [hmc] at hf
        cases hf
        exact maskCol_some_length p.2 m c hmc
    rw [hb2]
    intro p2 hp2
    have hp2' : p2 ∈ fl := hp2
    cases hfl : fl with
    | nil => rw [hfl] at hp2'; cases hp2'
    | cons q0 rest =>
      have hq0 : q0 ∈ fl := by
        rw [hfl]
        exact List.mem_cons_self q0 rest
      show p2.2.length = q0.2.length
      exact (hall p2 hp2').trans (hall q0 hq0).symm

theorem popColumns_nil_inv {α : Type} (rs : List String)
    (cols2 : List (String × α))
    (h : popColumns ([] : List (String × α)) rs = some cols2) : cols2 = [] := by
  cases rs with
  | nil => cases h; rfl
  | cons r rs' =>
    unfold popColumns popColumn at h
    cases h

theorem lenInv_appendField (T : Table) (name : String) (data : List PyVal)
    (b2 : Block) (hinv : lenInv T)
    (h : T.appendField name data = Except.ok b2) : b2.wellFormed := by
  unfold Table.appendField at h
  by_cases hc : T.columns.isEmpty
  · rw [if_pos hc] at h
    cases h
    exact wf_single name data
  · rw [if_neg hc] at h
    have hcols : T.columns ≠ [] := by
      intro hnil
      rw [hnil] at hc
      exact hc rfl
    rcases hinv hcols with ⟨b, hd, hwf⟩
    rw [hd] at h
    replace h : (if name ∈ b.names
        then (Except.error "append_field: duplicate field name"
          : Except String Block)
        else if data.length ≠ b.nrows
        then Except.error "append_field: length mismatch"
        else Except.ok (Block.mk (b.fields ++ [(name, data)])))
      = Except.ok b2 := h
    by_cases hm : name ∈ b.names
    · rw [if_pos hm] at h
      cases h
    · rw [if_neg hm] at h
      by_cases hlen : data.length ≠ b.nrows
      · rw [if_pos hlen] at h
        cases h
      · rw [if_neg hlen] at h
        cases h
        exact wf_append b name data hwf (not_not.1 hlen)

theorem lenInv_add_column (T : Table) (name : String) (data : List PyVal)
    (unit description null : String) (fmt : Option (Nat × String)) (T2 : Table)
    (h : T.add_column name data unit description null fmt = Except.ok T2)
    (hinv : lenInv T) : lenInv T2 := by
  unfold Table.add_column at h
  cases hdt : inferDType data with
  | none => rw [hdt] at h; cases h
  | some dt =>
    rw [hdt] at h
    cases happ : T.appendField name data with
    | error e => rw [happ] at h; cases h
    | ok b2 =>
      rw [happ] at h
      have hwf2 := lenInv_appendField T name data b2 hinv happ
      cases h
      intro _
      exact ⟨b2, rfl, hwf2⟩

theorem lenInv_remove_columns (T : Table) (rs : List String) (T2 : Table)
    (h : T.remove_columns rs = Except.ok T2) (hinv : lenInv T) : lenInv T2 := by
  unfold Table.remove_columns at h
  cases hpop : popColumns T.columns rs with
  | none => rw [hpop] at h; cases h
  | some cols2 =>
    rw [hpop] at h
    cases h
    intro hc2
    have hcols : T.columns ≠ [] := by
      intro hnil
      rw [hnil] at hpop
      exact hc2 (popColumns_nil_inv rs cols2 hpop)
    rcases hinv hcols with ⟨b, hd, hwf⟩
    refine ⟨Block.mk (b.fields.filter (fun p => !(rs.contains p.1))), ?_,
      wf_filter b _ hwf⟩
    show T.data.map
        (fun bb => Block.mk (bb.fields.filter (fun p => !(rs.contains p.1))))
      = some (Block.mk (b.fields.filter (fun p => !(rs.contains p.1))))
    rw [hd]
    rfl

theorem lenInv_keep_columns (T : Table) (ks : List String) (T2 : Table)
    (h : T.keep_columns ks = Except.ok T2) (hinv : lenInv T) : lenInv T2 := by
  unfold Table.keep_columns at h
  cases hns : T.namesAttr with
  | none => rw [hns] at h; cases h
  | some ns =>
    rw [hns] at h
    replace h : (if (ns.filter (fun n => !(ks.contains n))).length = ns.length
        then (Except.error "No columns to keep" : Except String Table)
        else T.remove_columns (ns.filter (fun n => !(ks.contains n))))
      = Except.ok T2 := h
    by_cases hlen : (ns.filter (fun n => !(ks.contains n))).length = ns.length
    · rw [if_pos hlen] at h
      cases h
    · rw [if_neg hlen] at h
      exact lenInv_remove_columns T _ T2 h hinv

theorem lenInv_rename_column (T : Table) (o n : String) (T2 : Table)
    (h : T.rename_column o n = Except.ok T2) (hinv : lenInv T) : lenInv T2 := by
  unfold Table.rename_column at h
  split at h
  · cases h
  · split at h
    · cases h
    · split at h
      · cases h
      · split at h
        · cases h
        · rename_i hdr hlk
          cases h
          intro _
          have hcols : T.columns ≠ [] := by
            intro hnil
            rw [hnil] at hlk
            cases hlk
          rcases hinv hcols with ⟨b, hd, hwf⟩
          exact ⟨b, hd, hwf⟩

theorem lenInv_where (T : Table) (m : Mask) (T2 : Table)
    (h : T.where' m = Except.ok T2) : lenInv T2 := by
  unfold Table.where' at h
  split at h
  · cases h
  · rename_i b hd
    split at h
    · cases h
    · rename_i b2 hsel
      cases h
      intro _
      exact ⟨b2, rfl, select_wf b m b2 hsel⟩

/-- C7 (amended): a table with no columns has length zero, though not
conversely (a selection can leave columns with zero rows); a table with
columns satisfying the equal-length data invariant has `len` equal to the
element count of every column of its data block, the count being
identical across columns; and `add_column`, `remove_columns`,
`keep_columns`, `rename_column`, `where` and `rows` preserve the
invariant whenever they succeed. -/
theorem len_invariant_and_preservation :
    (∀ T : Table, T.columns = [] → T.len = some 0)
    ∧ (∀ (T : Table) (b : Block), lenInv T → T.columns ≠ [] →
        T.data = some b →
        T.len = some b.nrows ∧ ∀ p ∈ b.fields, p.2.length = b.nrows)
    ∧ (∀ (T : Table) (name : String) (data : List PyVal)
        (unit description null : String) (fmt : Option (Nat × String))
        (T2 : Table),
        T.add_column name data unit description null fmt = Except.ok T2 →
        lenInv T → lenInv T2)
    ∧ (∀ (T : Table) (rs : List String) (T2 : Table),
        T.remove_columns rs = Except.ok T2 → lenInv T → lenInv T2)
    ∧ (∀ (T : Table) (ks : List String) (T2 : Table),
        T.keep_columns ks = Except.ok T2 → lenInv T → lenInv T2)
    ∧ (∀ (T : Table) (o n : String) (T2 : Table),
        T.rename_column o n = Except.ok T2 → lenInv T → lenInv T2)
    ∧ (∀ (T : Table) (m : Mask) (T2 : Table),
        T.where' m = Except.ok T2 → lenInv T → lenInv T2)
    ∧ (∀ (T : Table) (ids : List Int) (T2 : Table),
        T.rows ids = Except.ok T2 → lenInv T → lenInv T2) := by
  refine ⟨?_, ?_, ?_, ?_, ?_, ?_, ?_, ?_⟩
  · intro T hc
    simp [Table.len, hc]
  · intro T b hinv hc hd
    rcases hinv hc with ⟨b', hd', hwf⟩
    rw [hd] at hd'
    have hbb := Option.some.inj hd'
    subst hbb
    have hcc : T.columns.isEmpty = false := by
      cases hl : T.columns with
      | nil => exact absurd hl hc
      | cons p l => rfl
    constructor
    · simp [Table.len, hcc, hd]
    · exact hwf
  · exact fun T name data unit description null fmt T2 h hinv =>
      lenInv_add_column T name data unit description null fmt T2 h hinv
  · exact fun T rs T2 h hinv => lenInv_remove_columns T rs T2 h hinv
  · exact fun T ks T2 h hinv => lenInv_keep_columns T ks T2 h hinv
  · exact fun T o n T2 h hinv => lenInv_rename_column T o n T2 h hinv
  · exact fun T m T2 h _ => lenInv_where T m T2 h
  · exact fun T ids T2 h _ => lenInv_where T (Mask.ints ids) T2 h

/-- Witness for the amended C7 at the concrete one-column table. -/
theorem len_invariant_and_preservation_witness :
    tblInt.len = some blkInt.nrows
    ∧ ∀ p ∈ blkInt.fields, p.2.length = blkInt.nrows :=
  len_invariant_and_preservation.2.1 tblInt blkInt
    (fun _ => ⟨blkInt, by decide, by decide⟩) (by decide) (by decide)

end ATPy
